import Mathlib

/-!
Verification of `fylearn/garules.py` (Stoean-style multimodal evolutionary
classifiers).  The module is shallowly embedded over exact rationals: a data
matrix is a `List (List ℚ)` of rows, labels are natural numbers, and the
floating-point arrays of the source are idealised as exact arithmetic except
where division-by-zero semantics matter, for which a dedicated IEEE-like value
model (`FVal`) is used.  The genetic-algorithm engine (`fylearn.ga`, not part
of this repository's sources) is modelled from the spec as a deterministic
elitist real-coded GA threaded through an explicit pseudo-random state.
-/

namespace Garules

/-! ## Distance primitives (`StoeanDistance`, lines 36-40) -/

/-- Per-feature terms `|x_f - c_f| / d_f` of the normalized Manhattan distance
of one row to the reference point `c` under scale `d` (the elementwise
`np.abs(X - c) / d` of line 40, restricted to one row). -/
def rowTerms (d c row : List ℚ) : List ℚ :=
  List.zipWith (fun t dd => t / dd) (List.zipWith (fun x cc => |x - cc|) row c) d

/-- Row-wise normalized Manhattan distance: the axis-1 sum of `rowTerms`. -/
def rowDist (d c row : List ℚ) : ℚ :=
  (rowTerms d c row).sum

/-- `StoeanDistance`: wraps the per-feature scale vector `d` (line 37-38). -/
structure StoeanDistance where
  d : List ℚ

/-- `StoeanDistance.pairwise(X, c)` = `np.sum(np.abs(X - c) / self.d, 1)`
(line 40): one normalized Manhattan distance per row of `X`. -/
def StoeanDistance.pairwise (s : StoeanDistance) (X : List (List ℚ)) (c : List ℚ) : List ℚ :=
  X.map (rowDist s.d c)

/-! ## `np.nanmax` / `np.nanmin` columnwise (missing values as `none`) -/

/-- Reduce a column by `f`, ignoring missing (`none`) entries, as `np.nanmax`
and `np.nanmin` do along axis 0.  An all-missing column reduces to `0`
(out of scope of every claim). -/
def nanReduce (f : ℚ → ℚ → ℚ) (col : List (Option ℚ)) : ℚ :=
  match col.filterMap id with
  | [] => 0
  | v :: vs => vs.foldl f v

/-- `np.nanmax(X, 0)`: per-column maxima, missing entries ignored. -/
def nanmaxCols (X : List (List (Option ℚ))) : List ℚ :=
  X.transpose.map (nanReduce max)

/-- `np.nanmin(X, 0)`: per-column minima, missing entries ignored. -/
def nanminCols (X : List (List (Option ℚ))) : List ℚ :=
  X.transpose.map (nanReduce min)

/-- `stoean_f(X)` (lines 28-29): the default distance factory, building a
`StoeanDistance` with scale `np.nanmax(X, 0) - np.nanmin(X, 0)`. -/
def stoean_f (X : List (List (Option ℚ))) : StoeanDistance :=
  ⟨List.zipWith (fun b a => b - a) (nanmaxCols X) (nanminCols X)⟩

/-- Embed a fully-present (no missing value) matrix into the optional-entry
representation used by the nan-aware reductions. -/
def inj (X : List (List ℚ)) : List (List (Option ℚ)) :=
  X.map (fun r => r.map some)

/-! ## The two inline copies of the distance formula in the ensemble path -/

/-- Sum of every entry of a matrix (`np.sum` with no axis argument). -/
def flatSum : List (List ℚ) → ℚ
  | [] => 0
  | r :: rs => r.sum + flatSum rs

/-- Inline fitness of `EnsembleMultimodalEvolutionaryClassifier.build_for_class`
(line 127): `np.sum(np.abs(X - c) / self.d)`, the sum over every entry of the
elementwise matrix (no axis argument). -/
def ensembleFitness (d c : List ℚ) (X : List (List ℚ)) : ℚ :=
  flatSum (X.map (rowTerms d c))

/-- Inline per-row distance of `EnsembleMultimodalEvolutionaryClassifier.predict`
(line 185): `np.sum(np.abs(X - model) / self.d, 1)`. -/
def ensemblePairwise (d mdl : List ℚ) (X : List (List ℚ)) : List ℚ :=
  X.map (fun row => (rowTerms d mdl row).sum)

/-! ## `np.argmin` along an axis-1 row -/

/-- Minimum of a list of rationals (`0` for the empty list, never used there). -/
def listMin : List ℚ → ℚ
  | [] => 0
  | [a] => a
  | a :: b :: t => min a (listMin (b :: t))

/-- `np.argmin` on a one-dimensional array: index of the first occurrence of
the minimum (numpy's documented tie-break). -/
def argminQ : List ℚ → ℕ
  | [] => 0
  | [_] => 0
  | a :: b :: t => if a ≤ listMin (b :: t) then 0 else argminQ (b :: t) + 1

/-! ## `np.unique`: sorted unique labels -/

/-- Insert a label into a sorted duplicate-free list, keeping it sorted and
duplicate-free. -/
def insertSorted (a : ℕ) : List ℕ → List ℕ
  | [] => [a]
  | b :: t => if a = b then b :: t else if a ≤ b then a :: b :: t else b :: insertSorted a t

/-- `np.unique(y)`: the sorted list of distinct labels of `y` (line 78/152). -/
def npUnique (y : List ℕ) : List ℕ :=
  y.foldr insertSorted []

/-- `X[y == c]`: the rows of `X` whose label is `c` (lines 86/162). -/
def classSubset (X : List (List ℚ)) (y : List ℕ) (c : ℕ) : List (List ℚ) :=
  (X.zip y).filterMap (fun p => if p.2 = c then some p.1 else none)

/-! ## IEEE-like value model for the division-by-zero claim

Exact rationals cannot express what `np.abs(X - c) / d` does when an entry of
`d` is zero, so the safety claim is settled over a three-state value model:
a finite rational, positive infinity (the numerators here are absolute values,
hence nonnegative), or NaN. -/

/-- A floating-point result: finite, infinite, or NaN. -/
inductive FVal
  | fin : ℚ → FVal
  | inf : FVal
  | nan : FVal
deriving DecidableEq

/-- IEEE addition on `FVal`: NaN absorbs, then infinity absorbs. -/
def fvAdd : FVal → FVal → FVal
  | FVal.nan, _ => FVal.nan
  | _, FVal.nan => FVal.nan
  | FVal.inf, _ => FVal.inf
  | _, FVal.inf => FVal.inf
  | FVal.fin a, FVal.fin b => FVal.fin (a + b)

/-- IEEE division of a nonnegative numerator by a scale entry: `0/0` is NaN,
`t/0` with `t ≠ 0` is infinity, otherwise exact. -/
def fvDiv (t dd : ℚ) : FVal :=
  if dd = 0 then (if t = 0 then FVal.nan else FVal.inf) else FVal.fin (t / dd)

/-- The per-feature terms of one row's distance under IEEE division. -/
def rowTermsF (d c row : List ℚ) : List FVal :=
  List.zipWith (fun t dd => fvDiv t dd) (List.zipWith (fun x cc => |x - cc|) row c) d

/-- One row's distance under IEEE semantics: the `FVal` sum of its terms. -/
def rowSumF (d c row : List ℚ) : FVal :=
  (rowTermsF d c row).foldr fvAdd (FVal.fin 0)

/-- `StoeanDistance.pairwise` under IEEE division semantics (line 40 run on a
scale vector that may contain zeros). -/
def pairwiseF (d c : List ℚ) (X : List (List ℚ)) : List FVal :=
  X.map (rowSumF d c)

/-! ## Pseudo-random source and genetic algorithm engine

Modelled from the spec: the engine `fylearn.ga` (`GeneticAlgorithm`,
`helper_n_generations`) is not among this repository's sources.  Following
spec sections 4.2-4.3 it is a single-objective elitist real-coded GA with
population 100, elitism 3 and mutation probability 0.3, advanced a fixed
number of generations with no early stopping, all randomness drawn from one
explicit sequential pseudo-random source (a linear congruential generator
standing in for `numpy.random.RandomState`).  Selection is rank-biased
(minimum of two uniform draws), crossover is arithmetic gene blending, and
chromosomes are initialised uniformly within the observed per-feature range
of the training subset — choices the spec leaves open. -/

/-- Explicit pseudo-random state (models `numpy.random.RandomState`). -/
structure Rng where
  s : ℕ
deriving DecidableEq

/-- Advance the generator one step (31-bit linear congruential step). -/
def rngNext (r : Rng) : ℕ × Rng :=
  let s2 := (r.s * 1103515245 + 12345) % 2147483648
  (s2, ⟨s2⟩)

/-- A draw in `{0, ..., n-1}` (models `random_state.choice`). -/
def randBelow (n : ℕ) (r : Rng) : ℕ × Rng :=
  let (v, r2) := rngNext r
  (v % n, r2)

/-- A draw in `[lo, hi]`. -/
def randRange (lo hi : ℚ) (r : Rng) : ℚ × Rng :=
  let (v, r2) := rngNext r
  (lo + ((v : ℚ) / 2147483648) * (hi - lo), r2)

/-- A fresh chromosome: one gene per feature, drawn within that feature's
observed bounds. -/
def randChrom : List (ℚ × ℚ) → Rng → List ℚ × Rng
  | [], r => ([], r)
  | b :: bs, r =>
    let (v, r2) := randRange b.1 b.2 r
    let (vs, r3) := randChrom bs r2
    (v :: vs, r3)

/-- An initial population of `n` chromosomes. -/
def randPop (bounds : List (ℚ × ℚ)) : ℕ → Rng → List (List ℚ) × Rng
  | 0, r => ([], r)
  | n + 1, r =>
    let (c, r2) := randChrom bounds r
    let (cs, r3) := randPop bounds n r2
    (c :: cs, r3)

/-- Per-feature `(min, max)` bounds of a matrix, used to initialise genes. -/
def colBounds (X : List (List ℚ)) : List (ℚ × ℚ) :=
  X.transpose.map (fun col =>
    (match col with | [] => 0 | v :: vs => vs.foldl min v,
     match col with | [] => 0 | v :: vs => vs.foldl max v))

/-- Insert a fitness-keyed chromosome into a fitness-sorted list. -/
def insertByFit (p : ℚ × List ℚ) : List (ℚ × List ℚ) → List (ℚ × List ℚ)
  | [] => [p]
  | q :: t => if p.1 ≤ q.1 then p :: q :: t else q :: insertByFit p t

/-- Sort chromosomes by fitness, ascending (minimisation). -/
def sortByFit (l : List (ℚ × List ℚ)) : List (ℚ × List ℚ) :=
  l.foldr insertByFit []

/-- State of the genetic algorithm: the population and the random source. -/
structure GAState where
  population : List (List ℚ)
  rng : Rng

/-- Arithmetic crossover: per-gene average of the two parents. -/
def blend (a b : List ℚ) : List ℚ :=
  List.zipWith (fun x y => (x + y) / 2) a b

/-- Produce one child: rank-biased parent selection, blending crossover, and
with probability 0.3 a single-gene mutation within the gene's bounds. -/
def mkChild (bounds : List (ℚ × ℚ)) (pop : List (List ℚ)) (r : Rng) : List ℚ × Rng :=
  let n := pop.length
  let (a1, r1) := randBelow n r
  let (a2, r2) := randBelow n r1
  let (b1, r3) := randBelow n r2
  let (b2, r4) := randBelow n r3
  let child := blend (pop.getD (min a1 a2) []) (pop.getD (min b1 b2) [])
  let (m, r5) := rngNext r4
  if m % 10 < 3 then
    let (gi, r6) := randBelow child.length r5
    let bd := bounds.getD gi (0, 0)
    let (v, r7) := randRange bd.1 bd.2 r6
    (child.set gi v, r7)
  else (child, r5)

/-- Produce `k` children sequentially from one random source. -/
def mkChildren (bounds : List (ℚ × ℚ)) (pop : List (List ℚ)) :
    ℕ → Rng → List (List ℚ) × Rng
  | 0, r => ([], r)
  | k + 1, r =>
    let (c, r2) := mkChild bounds pop r
    let (cs, r3) := mkChildren bounds pop k r2
    (c :: cs, r3)

/-- One generation: evaluate fitness, sort ascending, keep the 3 elites, and
fill the remaining slots with children. -/
def gaAdvance (fitness : List ℚ → ℚ) (bounds : List (ℚ × ℚ)) (st : GAState) : GAState :=
  let sorted := (sortByFit (st.population.map (fun c => (fitness c, c)))).map (fun p => p.2)
  let (children, r2) := mkChildren bounds sorted (st.population.length - 3) st.rng
  ⟨sorted.take 3 ++ children, r2⟩

/-- `helper_n_generations(ga, n)`: advance exactly `n` generations. -/
def helper_n_generations (fitness : List ℚ → ℚ) (bounds : List (ℚ × ℚ)) :
    ℕ → GAState → GAState
  | 0, st => st
  | n + 1, st => helper_n_generations fitness bounds n (gaAdvance fitness bounds st)

/-- `ga.best(1)`: the lowest-fitness chromosome of the current population. -/
def gaBest1 (fitness : List ℚ → ℚ) (st : GAState) : List ℚ :=
  ((sortByFit (st.population.map (fun c => (fitness c, c)))).headD (0, [])).2

/-! ## `MultimodalEvolutionaryClassifier` (lines 42-104) -/

/-- `MultimodalEvolutionaryClassifier.build_for_class` (lines 57-72): evolve a
prototype for one class subset, fitness = `np.sum(self.distance_.pairwise(X, [c]))`. -/
def mec_build_for_class (nIter : ℕ) (d : List ℚ) (X : List (List ℚ)) (r : Rng) :
    List ℚ × Rng :=
  let fitness := fun c => ((StoeanDistance.mk d).pairwise X c).sum
  let bounds := colBounds X
  let (pop, r2) := randPop bounds 100 r
  let st := helper_n_generations fitness bounds nIter ⟨pop, r2⟩
  (gaBest1 fitness st, st.rng)

/-- Fitted state of the single-prototype classifier: the sorted classes, the
scale vector of the distance measure, and one model chromosome per class (the
source's dict keyed by class label, read back in the same sorted class order,
is rendered as a list parallel to `classes`). -/
structure FittedMEC where
  classes : List ℕ
  d : List ℚ
  models : List (List ℚ)

/-- The per-class model-building loop of `fit` (lines 84-86), threading one
random source through the classes in sorted order. -/
def buildModelsMec (nIter : ℕ) (d : List ℚ) (X : List (List ℚ)) (y : List ℕ) :
    List ℕ → Rng → List (List ℚ)
  | [], _ => []
  | c :: cs, r =>
    let p := mec_build_for_class nIter d (classSubset X y c) r
    p.1 :: buildModelsMec nIter d X y cs p.2

/-- `MultimodalEvolutionaryClassifier.fit` (lines 74-90) with the default
distance factory `stoean_f`.  `entropy` models the ambient seed of the
process-wide random source the GA engine draws from when none is supplied. -/
def mecFit (nIter : ℕ) (X : List (List ℚ)) (y : List ℕ) (entropy : ℕ) : FittedMEC :=
  let classes := npUnique y
  let dist := stoean_f (inj X)
  ⟨classes, dist.d, buildModelsMec nIter dist.d X y classes ⟨entropy⟩⟩

/-- The per-class column values of the `R` matrix of
`MultimodalEvolutionaryClassifier.predict` (lines 97-101): for each class the
source computes the SCALAR `np.sum(self.distance_.pairwise(X, [c]))` — the
distance total over ALL rows of `X` — and broadcasts it over the class's
column, so every row of `R` equals this one list of per-class totals. -/
def mecTotals (m : FittedMEC) (X : List (List ℚ)) : List ℚ :=
  m.models.map (fun mdl => ((StoeanDistance.mk m.d).pairwise X mdl).sum)

/-- `MultimodalEvolutionaryClassifier.predict` (lines 92-104), exactly as the
source computes it: every row of `R` is `mecTotals`, so `np.argmin(R, 1)`
picks the same first-minimal class for every row, and `classes_.take`
labels each row with it. -/
def mecPredict (m : FittedMEC) (X : List (List ℚ)) : List ℕ :=
  X.map (fun _ => m.classes.getD (argminQ (mecTotals m X)) 0)

/-- Modelled from the spec (section 4.4 `predict`): the score-matrix entry
`(i, c)` is the Distance-Measure value of input row `i` to class `c`'s model,
and each row independently takes the first-minimal class.  This is the
claimed behaviour, kept separate from `mecPredict` (what the code does). -/
def mecPredictSpec (m : FittedMEC) (X : List (List ℚ)) : List ℕ :=
  X.map (fun row =>
    m.classes.getD (argminQ (m.models.map (fun mdl => rowDist m.d mdl row))) 0)

/-! ## `EnsembleMultimodalEvolutionaryClassifier` (lines 107-189) -/

/-- `EnsembleMultimodalEvolutionaryClassifier.build_for_class` (lines 124-141):
same GA, but the fitness is the inline `np.sum(np.abs(X - c) / self.d)` and the
random source is the one shared object passed in by `fit`. -/
def emec_build_for_class (nIter : ℕ) (d : List ℚ) (X : List (List ℚ)) (r : Rng) :
    List ℚ × Rng :=
  let fitness := fun c => ensembleFitness d c X
  let bounds := colBounds X
  let (pop, r2) := randPop bounds 100 r
  let st := helper_n_generations fitness bounds nIter ⟨pop, r2⟩
  (gaBest1 fitness st, st.rng)

/-- Bootstrap resample (line 166): `k` rows drawn with replacement from `Xc`. -/
def resample (Xc : List (List ℚ)) : ℕ → Rng → List (List ℚ) × Rng
  | 0, r => ([], r)
  | k + 1, r =>
    let (i, r2) := randBelow Xc.length r
    let (rest, r3) := resample Xc k r2
    (Xc.getD i [] :: rest, r3)

/-- The inner loop of the ensemble `fit` (lines 163-167): for one class,
`n_models` rounds of resample-then-build, threading the shared random source. -/
def buildClassModelsEmec (nIter : ℕ) (d : List ℚ) (Xc : List (List ℚ)) :
    ℕ → Rng → List (List ℚ) × Rng
  | 0, r => ([], r)
  | k + 1, r =>
    let p := resample Xc Xc.length r
    let q := emec_build_for_class nIter d p.1 p.2
    let rest := buildClassModelsEmec nIter d Xc k q.2
    (q.1 :: rest.1, rest.2)

/-- The outer loop of the ensemble `fit` (lines 160-168): one model list per
class, in sorted class order, all sharing the random source and the scale `d`. -/
def buildModelsEmec (nIter nM : ℕ) (d : List ℚ) (X : List (List ℚ)) (y : List ℕ) :
    List ℕ → Rng → List (List (List ℚ))
  | [], _ => []
  | c :: cs, r =>
    let p := buildClassModelsEmec nIter d (classSubset X y c) nM r
    p.1 :: buildModelsEmec nIter nM d X y cs p.2

/-- Fitted state of the ensemble classifier: sorted classes, the global scale
vector `d`, and `n_models` chromosomes per class (dict rendered as a list
parallel to `classes`, as for `FittedMEC`). -/
structure FittedEMEC where
  classes : List ℕ
  d : List ℚ
  models : List (List (List ℚ))

/-- The inline scale computation of the ensemble `fit` (lines 155-157):
`b = np.nanmax(X, 0)`, `a = np.nanmin(X, 0)`, `d = b - a`. -/
def emecScale (X : List (List ℚ)) : List ℚ :=
  let b := nanmaxCols (inj X)
  let a := nanminCols (inj X)
  List.zipWith (fun bb aa => bb - aa) b a

/-- `EnsembleMultimodalEvolutionaryClassifier.fit` (lines 143-174).  The
random source is `RandomState(seed)` when a seed is supplied and an
entropy-seeded source otherwise (lines 147-150); the scale `d` is computed
once from the whole of `X` and shared by every class and resample. -/
def emecFit (nIter nM : ℕ) (seed : Option ℕ) (entropy : ℕ)
    (X : List (List ℚ)) (y : List ℕ) : FittedEMEC :=
  let r0 : Rng := ⟨match seed with | some s => s | none => entropy⟩
  let classes := npUnique y
  let d := emecScale X
  ⟨classes, d, buildModelsEmec nIter nM d X y classes r0⟩

/-- One row of the `M` matrix of the ensemble `predict` (lines 179-186): for
each class, the per-row inline distances to that class's models (line 185,
the rows of the `R` buffer) summed across the class's models
(`M[:,c_idx] = np.sum(R, 1)`), restricted to one input row.  The reused
`(len(X), n_models)` buffer `R` of the source is rendered per class afresh,
which agrees with the source because every fitted class stores exactly
`n_models` models, so each class iteration overwrites the whole buffer. -/
def emecAggs (m : FittedEMEC) (row : List ℚ) : List ℚ :=
  m.models.map (fun mdls => (mdls.map (fun mdl => rowDist m.d mdl row)).sum)

/-- `EnsembleMultimodalEvolutionaryClassifier.predict` (lines 176-189): each
row takes the first-minimal class of its aggregate scores. -/
def emecPredict (m : FittedEMEC) (X : List (List ℚ)) : List ℕ :=
  X.map (fun row => m.classes.getD (argminQ (emecAggs m row)) 0)

/-! ## Helper lemmas: list indexing -/

/-- `getD` through `map`, for an in-bounds index. -/
theorem getD_map_lt {α β : Type} (f : α → β) (ha : α) (hb : β) :
    ∀ (l : List α) (i : ℕ), i < l.length → (l.map f).getD i hb = f (l.getD i ha)
  | a :: t, 0, _ => rfl
  | a :: t, i + 1, h => getD_map_lt f ha hb t i (Nat.lt_of_succ_lt_succ h)

/-- An in-bounds `getD` is a member of the list. -/
theorem getD_mem_of_lt {α : Type} (dv : α) :
    ∀ (l : List α) (i : ℕ), i < l.length → l.getD i dv ∈ l
  | a :: t, 0, _ => List.mem_cons_self a t
  | a :: t, i + 1, h => List.mem_cons_of_mem a (getD_mem_of_lt dv t i (Nat.lt_of_succ_lt_succ h))

/-- `getD` through `zipWith`, for an index in bounds on both sides. -/
theorem getD_zipWith_lt {α β γ : Type} (g : α → β → γ) (da : α) (db : β) (dc : γ) :
    ∀ (l1 : List α) (l2 : List β) (i : ℕ), i < l1.length → i < l2.length →
      (List.zipWith g l1 l2).getD i dc = g (l1.getD i da) (l2.getD i db)
  | a :: t1, b :: t2, 0, _, _ => rfl
  | a :: t1, b :: t2, i + 1, h1, h2 =>
    getD_zipWith_lt g da db dc t1 t2 i (Nat.lt_of_succ_lt_succ h1) (Nat.lt_of_succ_lt_succ h2)

/-! ## Helper lemmas: `listMin` and `argminQ` -/

/-- The list minimum bounds every in-bounds entry from below. -/
theorem listMin_le : ∀ (l : List ℚ) (j : ℕ), j < l.length → listMin l ≤ l.getD j 0
  | [a], 0, _ => le_refl a
  | a :: b :: t, 0, _ => min_le_left _ _
  | a :: b :: t, j + 1, h =>
    le_trans (min_le_right a (listMin (b :: t)))
      (listMin_le (b :: t) j (Nat.lt_of_succ_lt_succ h))

/-- `argminQ` is in bounds on a nonempty list. -/
theorem argminQ_lt_length : ∀ (l : List ℚ), l ≠ [] → argminQ l < l.length
  | [a], _ => Nat.zero_lt_one
  | a :: b :: t, _ => by
    by_cases hc : a ≤ listMin (b :: t)
    · simpa [argminQ, hc] using Nat.succ_pos _
    · have ih := argminQ_lt_length (b :: t) (by simp)
      simpa [argminQ, hc] using Nat.succ_lt_succ ih

/-- The entry at `argminQ` is the list minimum. -/
theorem getD_argminQ : ∀ (l : List ℚ), l ≠ [] → l.getD (argminQ l) 0 = listMin l
  | [a], _ => rfl
  | a :: b :: t, _ => by
    by_cases hc : a ≤ listMin (b :: t)
    · simp [argminQ, hc, listMin, min_eq_left hc]
    · have ih := getD_argminQ (b :: t) (by simp)
      have hlt : listMin (b :: t) < a := lt_of_not_le hc
      rw [show argminQ (a :: b :: t) = argminQ (b :: t) + 1 from by simp [argminQ, hc],
        List.getD_cons_succ, ih]
      simp [listMin, min_eq_right (le_of_lt hlt)]

/-- `argminQ` is the FIRST index of the minimum: every earlier entry is
strictly larger. -/
theorem argminQ_first : ∀ (l : List ℚ) (j : ℕ), j < argminQ l →
    l.getD (argminQ l) 0 < l.getD j 0
  | [], j, h => absurd h (by simp [argminQ])
  | [a], j, h => absurd h (by simp [argminQ])
  | a :: b :: t, j, h => by
    by_cases hc : a ≤ listMin (b :: t)
    · rw [argminQ] at h
      simp [hc] at h
    · rw [argminQ] at h
      simp only [hc, if_false] at h
      have hmin : (a :: b :: t).getD (argminQ (a :: b :: t)) 0 = listMin (b :: t) := by
        rw [show argminQ (a :: b :: t) = argminQ (b :: t) + 1 from by simp [argminQ, hc],
          List.getD_cons_succ]
        exact getD_argminQ (b :: t) (by simp)
      cases j with
      | zero =>
        rw [hmin]
        exact lt_of_not_le hc
      | succ j' =>
        have ih := argminQ_first (b :: t) j' (Nat.lt_of_succ_lt_succ h)
        rw [hmin]
        have hmin2 := getD_argminQ (b :: t) (by simp)
        calc listMin (b :: t) = (b :: t).getD (argminQ (b :: t)) 0 := hmin2.symm
          _ < (b :: t).getD j' 0 := ih
          _ = (a :: b :: t).getD (j' + 1) 0 := rfl

/-! ## Helper lemmas: `npUnique` and class subsets -/

/-- Membership through sorted-unique insertion. -/
theorem mem_insertSorted (x a : ℕ) : ∀ (l : List ℕ), x ∈ insertSorted a l ↔ x = a ∨ x ∈ l
  | [] => by simp [insertSorted]
  | b :: t => by
    by_cases he : a = b
    · subst he
      simp only [insertSorted, if_pos rfl]
      constructor
      · exact fun h => Or.inr h
      · rintro (h | h)
        · simp [h]
        · exact h
    · by_cases hle : a ≤ b
      · simp [insertSorted, he, hle, List.mem_cons, or_comm, or_left_comm, or_assoc]
      · have ih := mem_insertSorted x a t
        simp only [insertSorted, if_neg he, if_neg hle, List.mem_cons, ih]
        tauto

/-- A label is in `npUnique y` exactly when it occurs in `y`. -/
theorem mem_npUnique (x : ℕ) : ∀ (y : List ℕ), x ∈ npUnique y ↔ x ∈ y
  | [] => by simp [npUnique]
  | c :: t => by
    have ih := mem_npUnique x t
    simp only [npUnique, List.foldr] at ih ⊢
    rw [mem_insertSorted, ih, List.mem_cons, eq_comm]

/-- `npUnique` of a nonempty label vector is nonempty. -/
theorem npUnique_ne_nil (y : List ℕ) (h : y ≠ []) : npUnique y ≠ [] := by
  cases y with
  | nil => exact absurd rfl h
  | cons c t =>
    intro hcon
    have : c ∈ npUnique (c :: t) := (mem_npUnique c (c :: t)).2 (List.mem_cons_self c t)
    rw [hcon] at this
    exact absurd this (List.not_mem_nil c)

/-- Every label occurring in `y` has a nonempty class subset (given the
row-count agreement that `check_arrays` validates). -/
theorem classSubset_ne_nil :
    ∀ (X : List (List ℚ)) (y : List ℕ) (c : ℕ), X.length = y.length → c ∈ y →
      classSubset X y c ≠ []
  | [], y, c, hlen, hmem => by
    cases y with
    | nil => exact absurd hmem (List.not_mem_nil c)
    | cons a t => simp at hlen
  | x :: Xt, y, c, hlen, hmem => by
    cases y with
    | nil => simp at hlen
    | cons cv yt =>
      by_cases he : cv = c
      · simp [classSubset, he]
      · have hmem2 : c ∈ yt := by
          rcases List.mem_cons.1 hmem with h | h
          · exact absurd h.symm he
          · exact h
        have ih := classSubset_ne_nil Xt yt c (by simpa using hlen) hmem2
        simpa [classSubset, he] using ih

/-! ## Helper lemmas: sums -/

/-- The full-matrix sum is the sum of the row sums. -/
theorem flatSum_eq : ∀ (L : List (List ℚ)), flatSum L = (L.map List.sum).sum
  | [] => rfl
  | r :: rs => by simp [flatSum, flatSum_eq rs]

/-- The zipWith-structured row distance written as an indexed sum over the
features, for matching feature counts. -/
theorem rowTerms_sum : ∀ (row c d : List ℚ), row.length = c.length → c.length = d.length →
    (rowTerms d c row).sum =
      ∑ f ∈ Finset.range row.length, |row.getD f 0 - c.getD f 0| / d.getD f 0
  | [], c, d, _, _ => by simp [rowTerms]
  | x :: rt, c, d, h1, h2 => by
    cases c with
    | nil => simp at h1
    | cons cc ct =>
      cases d with
      | nil => rw [← h1] at h2; simp at h2
      | cons dd dt =>
        have ih := rowTerms_sum rt ct dt (by simpa using h1) (by simpa using h2)
        simp only [rowTerms, List.zipWith_cons_cons, List.sum_cons, List.length_cons]
        rw [Finset.sum_range_succ']
        simp only [List.getD_cons_succ, List.getD_cons_zero]
        rw [show (List.zipWith (fun t dd2 => t / dd2)
            (List.zipWith (fun x2 cc2 => |x2 - cc2|) rt ct) dt).sum
            = (rowTerms dt ct rt).sum from rfl, ih]
        ring

/-! ## Helper lemmas: the IEEE value model -/

/-- If an `FVal` sum is finite then every summand is finite. -/
theorem foldr_fvAdd_fin : ∀ (l : List FVal) (q : ℚ),
    l.foldr fvAdd (FVal.fin 0) = FVal.fin q → ∀ t ∈ l, ∃ u, t = FVal.fin u := by
  intro l
  induction l with
  | nil => intro q h t ht; exact absurd ht (List.not_mem_nil t)
  | cons s l' ih =>
    intro q h t ht
    rw [List.foldr_cons] at h
    cases s with
    | fin a =>
      cases hrest : l'.foldr fvAdd (FVal.fin 0) with
      | fin b =>
        rcases List.mem_cons.1 ht with rfl | htl
        · exact ⟨a, rfl⟩
        · exact ih b hrest t htl
      | inf => rw [hrest] at h; simp [fvAdd] at h
      | nan => rw [hrest] at h; simp [fvAdd] at h
    | inf =>
      cases hrest : l'.foldr fvAdd (FVal.fin 0) with
      | fin b => rw [hrest] at h; simp [fvAdd] at h
      | inf => rw [hrest] at h; simp [fvAdd] at h
      | nan => rw [hrest] at h; simp [fvAdd] at h
    | nan => simp [fvAdd] at h

/-- Division by a zero scale entry is never finite (it is NaN or infinity). -/
theorem fvDiv_zero_ne_fin (t u : ℚ) : fvDiv t 0 ≠ FVal.fin u := by
  by_cases h : t = 0 <;> simp [fvDiv, h]

/-! ## Helper lemmas: shapes produced by `fit` -/

/-- The single-prototype `fit` builds one model per class. -/
theorem buildModelsMec_length (nIter : ℕ) (d : List ℚ) (X : List (List ℚ)) (y : List ℕ) :
    ∀ (cs : List ℕ) (r : Rng), (buildModelsMec nIter d X y cs r).length = cs.length
  | [], _ => rfl
  | c :: cs, r => by
    simp [buildModelsMec, buildModelsMec_length nIter d X y cs]

/-- The ensemble `fit` builds one model list per class. -/
theorem buildModelsEmec_length (nIter nM : ℕ) (d : List ℚ) (X : List (List ℚ)) (y : List ℕ) :
    ∀ (cs : List ℕ) (r : Rng), (buildModelsEmec nIter nM d X y cs r).length = cs.length
  | [], _ => rfl
  | c :: cs, r => by
    simp [buildModelsEmec, buildModelsEmec_length nIter nM d X y cs]

/-- Each class's inner loop builds exactly `k` models. -/
theorem buildClassModelsEmec_length (nIter : ℕ) (d : List ℚ) (Xc : List (List ℚ)) :
    ∀ (k : ℕ) (r : Rng), (buildClassModelsEmec nIter d Xc k r).1.length = k
  | 0, _ => rfl
  | k + 1, r => by
    simp [buildClassModelsEmec, buildClassModelsEmec_length nIter d Xc k]

/-- Every per-class model list the ensemble `fit` stores has `n_models`
entries. -/
theorem mem_buildModelsEmec_length (nIter nM : ℕ) (d : List ℚ) (X : List (List ℚ))
    (y : List ℕ) : ∀ (cs : List ℕ) (r : Rng) (ms : List (List ℚ)),
      ms ∈ buildModelsEmec nIter nM d X y cs r → ms.length = nM
  | [], r, ms, h => absurd h (List.not_mem_nil ms)
  | c :: cs, r, ms, h => by
    simp only [buildModelsEmec, List.mem_cons] at h
    rcases h with rfl | h
    · exact buildClassModelsEmec_length nIter d _ nM _
    · exact mem_buildModelsEmec_length nIter nM d X y cs _ ms h

/-! ## Helper lemmas: the GA on an empty class subset -/

/-- With no features to bound, every fresh chromosome is empty and the random
source is untouched. -/
theorem randPop_nil : ∀ (n : ℕ) (r : Rng), randPop [] n r = (List.replicate n [], r)
  | 0, _ => rfl
  | n + 1, r => by
    simp [randPop, randChrom, randPop_nil n r, List.replicate]

/-- Inserting the zero-fitness empty chromosome into a run of itself. -/
theorem insertByFit_const : ∀ (k : ℕ),
    insertByFit ((0 : ℚ), ([] : List ℚ)) (List.replicate k ((0 : ℚ), ([] : List ℚ)))
      = List.replicate (k + 1) ((0 : ℚ), ([] : List ℚ))
  | 0 => rfl
  | k + 1 => by
    simp [insertByFit, List.replicate_succ]

/-- Sorting a constant population is the identity. -/
theorem sortByFit_const : ∀ (k : ℕ),
    sortByFit (List.replicate k ((0 : ℚ), ([] : List ℚ)))
      = List.replicate k ((0 : ℚ), ([] : List ℚ))
  | 0 => rfl
  | k + 1 => by
    simp only [List.replicate_succ, sortByFit, List.foldr_cons]
    rw [show List.foldr insertByFit [] (List.replicate k ((0 : ℚ), ([] : List ℚ)))
        = sortByFit (List.replicate k ((0 : ℚ), ([] : List ℚ))) from rfl,
      sortByFit_const k, insertByFit_const k, List.replicate_succ]

/-- `build_for_class` on an EMPTY class subset raises nothing: the fitness of
every chromosome is the empty sum `0`, and the best of the 100 initial
(zero-gene) chromosomes — a degenerate model — is returned. -/
theorem mec_build_for_class_nil (d : List ℚ) (r : Rng) :
    mec_build_for_class 0 d [] r = ([], r) := by
  have hb : colBounds ([] : List (List ℚ)) = [] := rfl
  simp only [mec_build_for_class, hb, randPop_nil, helper_n_generations, gaBest1,
    StoeanDistance.pairwise, List.map_nil, List.sum_nil, List.map_replicate]
  rw [sortByFit_const 100]
  simp [List.replicate_succ]

/-! ## Helper lemmas: predicted labels come from the class set -/

/-- Every label `mecPredict` outputs is in the stored class set. -/
theorem mecPredict_mem (m : FittedMEC) (X : List (List ℚ)) (hne : m.classes ≠ [])
    (hml : m.models.length = m.classes.length) :
    ∀ v ∈ mecPredict m X, v ∈ m.classes := by
  intro v hv
  simp only [mecPredict, List.mem_map] at hv
  obtain ⟨a, _, hva⟩ := hv
  rw [← hva]
  have htot : (mecTotals m X).length = m.classes.length := by
    rw [mecTotals, List.length_map]; exact hml
  have htne : mecTotals m X ≠ [] := by
    rw [← List.length_pos, htot]
    exact List.length_pos.2 hne
  exact getD_mem_of_lt 0 m.classes (argminQ (mecTotals m X))
    (htot ▸ argminQ_lt_length (mecTotals m X) htne)

/-- Every label `emecPredict` outputs is in the stored class set. -/
theorem emecPredict_mem (m : FittedEMEC) (X : List (List ℚ)) (hne : m.classes ≠ [])
    (hml : m.models.length = m.classes.length) :
    ∀ v ∈ emecPredict m X, v ∈ m.classes := by
  intro v hv
  simp only [emecPredict, List.mem_map] at hv
  obtain ⟨row, _, hva⟩ := hv
  rw [← hva]
  have htot : (emecAggs m row).length = m.classes.length := by
    rw [emecAggs, List.length_map]; exact hml
  have htne : emecAggs m row ≠ [] := by
    rw [← List.length_pos, htot]
    exact List.length_pos.2 hne
  exact getD_mem_of_lt 0 m.classes (argminQ (emecAggs m row))
    (htot ▸ argminQ_lt_length (emecAggs m row) htne)

/-! ## Claims -/

/-- Claim C3: for a scale vector `d` with all entries nonzero, a reference
point `c` and a point set `X` of matching feature count,
`StoeanDistance.pairwise(X, c)` returns one entry per row of `X`, entry `i`
being the sum over the features `f` of `|X[i,f] - c[f]| / d[f]`; in
particular `pairwise([[0,0],[2,2]], [1,1])` with `d = [1,1]` is `[2, 2]`. -/
theorem C3_pairwise_rowwise_sums (d c : List ℚ) (X : List (List ℚ))
    (hdc : d.length = c.length) (hrow : ∀ row ∈ X, row.length = c.length)
    (hdz : ∀ q ∈ d, q ≠ 0) :
    ((StoeanDistance.mk d).pairwise X c).length = X.length ∧
    (∀ i, i < X.length → ((StoeanDistance.mk d).pairwise X c).getD i 0 =
      ∑ f ∈ Finset.range c.length,
        |(X.getD i []).getD f 0 - c.getD f 0| / d.getD f 0) ∧
    (StoeanDistance.mk [1, 1]).pairwise [[0, 0], [2, 2]] [1, 1] = [2, 2] := by
  refine ⟨by simp [StoeanDistance.pairwise], ?_, ?_⟩
  · intro i hi
    rw [StoeanDistance.pairwise, getD_map_lt (rowDist d c) [] 0 X i hi]
    have hr : (X.getD i []).length = c.length := hrow _ (getD_mem_of_lt [] X i hi)
    rw [rowDist, rowTerms_sum (X.getD i []) c d hr hdc.symm, hr]
  · norm_num [StoeanDistance.pairwise, rowDist, rowTerms]

/-- Witness for C3 at the spec's own concrete example. -/
theorem C3_pairwise_witness :
    (∀ q ∈ ([1, 1] : List ℚ), q ≠ 0) ∧
    (StoeanDistance.mk [1, 1]).pairwise [[0, 0], [2, 2]] [1, 1] = [2, 2] :=
  ⟨by decide,
    (C3_pairwise_rowwise_sums [1, 1] [1, 1] [[0, 0], [2, 2]] rfl (by decide) (by decide)).2.2⟩

/-- Claim C4: the normalized Manhattan distance is numerically identical in
both classifiers' code paths — the ensemble's inline fitness
`np.sum(np.abs(X-c)/d)` equals the total of the single-model path's
`StoeanDistance.pairwise` distances, and the ensemble `predict`'s inline
per-row distance `np.sum(np.abs(X-model)/d, 1)` equals
`StoeanDistance.pairwise` entrywise. -/
theorem C4_distance_paths_agree (d c : List ℚ) (X : List (List ℚ)) :
    ensembleFitness d c X = ((StoeanDistance.mk d).pairwise X c).sum ∧
    ensemblePairwise d c X = (StoeanDistance.mk d).pairwise X c := by
  constructor
  · rw [ensembleFitness, flatSum_eq, List.map_map]
    rfl
  · rfl

/-- Claim C5: with a fixed integer seed, two independent `fit` + `predict`
runs of the ensemble classifier on identical training and query data produce
identical label sequences, regardless of the ambient entropy available to
either run (the seeded `RandomState` makes the whole pipeline a function of
the seed and the data alone). -/
theorem C5_ensemble_deterministic (nIter nM s e1 e2 : ℕ) (X Xq : List (List ℚ))
    (y : List ℕ) :
    emecPredict (emecFit nIter nM (some s) e1 X y) Xq
      = emecPredict (emecFit nIter nM (some s) e2 X y) Xq := rfl

/-- Claim C6: the scale vector `d` is computed once per `fit` as the
per-feature `nanmax - nanmin` over the ENTIRE training set: the ensemble's
inline computation coincides with the default factory `stoean_f`'s scale;
the single-model `fit` stores exactly the default factory's scale for the
full `X`; the ensemble `fit` stores that scale and threads the very same
vector into the model building of every class and resample; and the
nan-reductions ignore missing entries (shown both in general for a leading
missing entry and on a concrete two-feature matrix). -/
theorem C6_scale_once_shared (nIter nM ent : ℕ) (seed : Option ℕ)
    (X : List (List ℚ)) (y : List ℕ) (f : ℚ → ℚ → ℚ) (col : List (Option ℚ)) :
    emecScale X = (stoean_f (inj X)).d ∧
    (mecFit nIter X y ent).d = (stoean_f (inj X)).d ∧
    (emecFit nIter nM seed ent X y).d = emecScale X ∧
    (emecFit nIter nM seed ent X y).models
      = buildModelsEmec nIter nM (emecScale X) X y (npUnique y)
          ⟨match seed with | some s => s | none => ent⟩ ∧
    nanReduce f (none :: col) = nanReduce f col ∧
    (stoean_f [[some 1, none], [some 5, some 2]]).d = [4, 0] := by
  refine ⟨rfl, rfl, rfl, rfl, rfl, ?_⟩
  have ht : ([[some (1 : ℚ), none], [some 5, some 2]] :
      List (List (Option ℚ))).transpose = [[some 1, some 5], [none, some 2]] := rfl
  simp only [stoean_f, nanmaxCols, nanminCols, ht, List.map_cons, List.map_nil]
  norm_num [nanReduce, List.filterMap_cons, List.zipWith_cons_cons]

/-- Claim C7 is violated by the code, which has no zero-range check at all:
on the training set `[[1], [1]]` the feature is constant, the default scale
is `d = [0]`, and the distance computation returns a value for every row —
positive infinity — instead of raising any error. -/
theorem C7_counterexample :
    (stoean_f (inj [[1], [1]])).d = [0] ∧
    pairwiseF [0] [0] [[1], [1]] = [FVal.inf, FVal.inf] := by
  constructor
  · have ht : (inj [[(1 : ℚ)], [1]]).transpose = [[some 1, some 1]] := rfl
    simp only [stoean_f, nanmaxCols, nanminCols, ht, List.map_cons, List.map_nil]
    norm_num [nanReduce, List.filterMap_cons, List.zipWith_cons_cons]
  · norm_num [pairwiseF, rowSumF, rowTermsF, fvDiv, fvAdd]

/-- Claim C7 amended: the distance computation never raises on a zero-range
feature; division by the zero scale entry silently yields non-finite values
(infinity, or NaN when the point matches the reference at that feature), and
the affected row's whole distance is then non-finite and propagates into
every fitness value and prediction score that consumes it. -/
theorem C7_amended_nonfinite (d c : List ℚ) (X : List (List ℚ)) (i f : ℕ)
    (hi : i < X.length) (hrc : (X.getD i []).length = c.length)
    (hcd : c.length = d.length) (hf : f < d.length) (hdz : d.getD f 0 = 0) :
    ¬ ∃ q : ℚ, (pairwiseF d c X).getD i FVal.nan = FVal.fin q := by
  rintro ⟨q, hq⟩
  rw [pairwiseF, getD_map_lt (rowSumF d c) [] FVal.nan X i hi, rowSumF] at hq
  have hlen1 : (List.zipWith (fun x cc => |x - cc|) (X.getD i []) c).length = c.length := by
    rw [List.length_zipWith, hrc, min_self]
  have hterms : (rowTermsF d c (X.getD i [])).length = d.length := by
    rw [rowTermsF, List.length_zipWith, hlen1, hcd, min_self]
  have hfterm : (rowTermsF d c (X.getD i [])).getD f FVal.nan
      = fvDiv ((List.zipWith (fun x cc => |x - cc|) (X.getD i []) c).getD f 0)
          (d.getD f 0) := by
    apply getD_zipWith_lt
    · rw [hlen1, hcd]; exact hf
    · exact hf
  have hmem : (rowTermsF d c (X.getD i [])).getD f FVal.nan ∈ rowTermsF d c (X.getD i []) :=
    getD_mem_of_lt FVal.nan _ f (by rw [hterms]; exact hf)
  rcases foldr_fvAdd_fin (rowTermsF d c (X.getD i [])) q hq _ hmem with ⟨u, hu⟩
  rw [hfterm, hdz] at hu
  exact fvDiv_zero_ne_fin _ u hu

/-- Witness for the amended C7 at `d = [0]`, `c = [0]`, `X = [[1]]`. -/
theorem C7_amended_witness :
    (0 < ([[(1 : ℚ)]] : List (List ℚ)).length ∧ ([0] : List ℚ).getD 0 0 = 0) ∧
    ¬ ∃ q : ℚ, (pairwiseF [0] [0] [[1]]).getD 0 FVal.nan = FVal.fin q :=
  ⟨⟨by decide, by decide⟩,
    C7_amended_nonfinite [0] [0] [[1]] 0 0 (by decide) (by decide) rfl (by decide) (by decide)⟩

/-- Claim C8 is violated by the code: `build_for_class` applied to an empty
class subset raises no error (no `DataError` exists anywhere in the module);
it evolves against the constant-zero objective and returns a degenerate
model chromosome, leaving the random source untouched. -/
theorem C8_counterexample :
    mec_build_for_class 0 [1] [] ⟨1⟩ = ([], ⟨1⟩) :=
  mec_build_for_class_nil [1] ⟨1⟩

/-- Claim C8 amended: no error is raised for an empty class subset; instead
the situation cannot arise during `fit`, because the class set is
`np.unique(y)`, so every class label in it has at least one matching
training row and every per-class subset `X[y == c]` is nonempty. -/
theorem C8_amended_no_empty_subset (X : List (List ℚ)) (y : List ℕ) (c : ℕ)
    (hlen : X.length = y.length) (hc : c ∈ npUnique y) :
    classSubset X y c ≠ [] :=
  classSubset_ne_nil X y c hlen ((mem_npUnique c y).1 hc)

/-- Witness for the amended C8 on a one-row training set. -/
theorem C8_amended_witness :
    (([[(1 : ℚ)]] : List (List ℚ)).length = [2].length ∧ 2 ∈ npUnique [2]) ∧
    classSubset [[(1 : ℚ)]] [2] 2 ≠ [] :=
  ⟨⟨rfl, by decide⟩, C8_amended_no_empty_subset [[1]] [2] 2 rfl (by decide)⟩

/-- Claim C1 is violated by the code: `predict` writes the scalar
`np.sum(self.distance_.pairwise(X, [c]))` — the distance total over ALL rows
of `X` — into the whole class column of `R`, so the score-matrix entry
`(i, c)` is not row `i`'s distance.  On the fitted state with classes
`[0, 1]`, prototypes `[0]` and `[10]` and scale `[1]`, input
`[[0], [10], [10]]` is labelled `[1, 1, 1]` by the code, while the claimed
per-row semantics (`mecPredictSpec`) yields `[0, 1, 1]`: row 0 sits at
distance 0 from class 0's prototype and distance 10 from class 1's, yet the
code assigns it class 1. -/
theorem C1_predict_collapses_rows :
    mecPredict ⟨[0, 1], [1], [[0], [10]]⟩ [[0], [10], [10]] = [1, 1, 1] ∧
    mecPredictSpec ⟨[0, 1], [1], [[0], [10]]⟩ [[0], [10], [10]] = [0, 1, 1] ∧
    rowDist [1] [0] [0] = 0 ∧ rowDist [1] [10] [0] = 10 := by
  refine ⟨?_, ?_, ?_, ?_⟩
  · norm_num [mecPredict, mecTotals, StoeanDistance.pairwise, rowDist, rowTerms,
      argminQ, listMin]
  · norm_num [mecPredictSpec, rowDist, rowTerms, argminQ, listMin]
  · norm_num [rowDist, rowTerms]
  · norm_num [rowDist, rowTerms]

/-- The first-minimum characterisation of one ensemble prediction: row `i`'s
label is the class at the argmin of its aggregate scores, that aggregate is
minimal among all classes, and every strictly earlier class has a strictly
larger aggregate. -/
theorem emecAggs_argmin_spec (m : FittedEMEC) (Xq : List (List ℚ)) (i : ℕ)
    (hi : i < Xq.length) :
    (emecPredict m Xq).getD i 0
      = m.classes.getD (argminQ (emecAggs m (Xq.getD i []))) 0 ∧
    (∀ j, j < (emecAggs m (Xq.getD i [])).length →
      (emecAggs m (Xq.getD i [])).getD (argminQ (emecAggs m (Xq.getD i []))) 0
        ≤ (emecAggs m (Xq.getD i [])).getD j 0) ∧
    (∀ j, j < argminQ (emecAggs m (Xq.getD i [])) →
      (emecAggs m (Xq.getD i [])).getD (argminQ (emecAggs m (Xq.getD i []))) 0
        < (emecAggs m (Xq.getD i [])).getD j 0) := by
  refine ⟨?_, ?_, ?_⟩
  · rw [emecPredict,
      getD_map_lt (fun row => m.classes.getD (argminQ (emecAggs m row)) 0) [] 0 Xq i hi]
  · intro j hj
    rw [getD_argminQ _ (List.length_pos.1 (Nat.lt_of_le_of_lt (Nat.zero_le j) hj))]
    exact listMin_le _ j hj
  · exact fun j hj => argminQ_first _ j hj

/-- Claim C2: for a fitted ensemble classifier, every class stores exactly
`n_models` model chromosomes and there is one aggregate score per class (the
sum, over the class's models, of the row's normalized Manhattan distances —
`emecAggs`); `predict` labels row `i` with the class whose aggregate is
minimal, ties broken by the first (lowest-index) class in sorted order. -/
theorem C2_ensemble_predict (nIter nM : ℕ) (seed : Option ℕ) (ent : ℕ)
    (X Xq : List (List ℚ)) (y : List ℕ) (i : ℕ) (hi : i < Xq.length) :
    (∀ mdls ∈ (emecFit nIter nM seed ent X y).models, mdls.length = nM) ∧
    (emecFit nIter nM seed ent X y).models.length
      = (emecFit nIter nM seed ent X y).classes.length ∧
    ((emecPredict (emecFit nIter nM seed ent X y) Xq).getD i 0
      = (emecFit nIter nM seed ent X y).classes.getD
          (argminQ (emecAggs (emecFit nIter nM seed ent X y) (Xq.getD i []))) 0 ∧
     (∀ j, j < (emecAggs (emecFit nIter nM seed ent X y) (Xq.getD i [])).length →
       (emecAggs (emecFit nIter nM seed ent X y) (Xq.getD i [])).getD
           (argminQ (emecAggs (emecFit nIter nM seed ent X y) (Xq.getD i []))) 0
         ≤ (emecAggs (emecFit nIter nM seed ent X y) (Xq.getD i [])).getD j 0) ∧
     (∀ j, j < argminQ (emecAggs (emecFit nIter nM seed ent X y) (Xq.getD i [])) →
       (emecAggs (emecFit nIter nM seed ent X y) (Xq.getD i [])).getD
           (argminQ (emecAggs (emecFit nIter nM seed ent X y) (Xq.getD i []))) 0
         < (emecAggs (emecFit nIter nM seed ent X y) (Xq.getD i [])).getD j 0)) :=
  ⟨fun mdls h => mem_buildModelsEmec_length nIter nM (emecScale X) X y (npUnique y) _ mdls h,
   buildModelsEmec_length nIter nM (emecScale X) X y (npUnique y) _,
   emecAggs_argmin_spec (emecFit nIter nM seed ent X y) Xq i hi⟩

/-- Witness for C2 on a one-row query against a tiny fitted ensemble. -/
theorem C2_ensemble_predict_witness :
    (0 < ([[(2 : ℚ)]] : List (List ℚ)).length) ∧
    ((∀ mdls ∈ (emecFit 0 1 (some 0) 0 [[(1 : ℚ)]] [3]).models, mdls.length = 1) ∧
     (emecFit 0 1 (some 0) 0 [[(1 : ℚ)]] [3]).models.length
       = (emecFit 0 1 (some 0) 0 [[(1 : ℚ)]] [3]).classes.length ∧
     ((emecPredict (emecFit 0 1 (some 0) 0 [[(1 : ℚ)]] [3]) [[(2 : ℚ)]]).getD 0 0
       = (emecFit 0 1 (some 0) 0 [[(1 : ℚ)]] [3]).classes.getD
           (argminQ (emecAggs (emecFit 0 1 (some 0) 0 [[(1 : ℚ)]] [3])
             (([[(2 : ℚ)]] : List (List ℚ)).getD 0 []))) 0 ∧
      (∀ j, j < (emecAggs (emecFit 0 1 (some 0) 0 [[(1 : ℚ)]] [3])
            (([[(2 : ℚ)]] : List (List ℚ)).getD 0 [])).length →
        (emecAggs (emecFit 0 1 (some 0) 0 [[(1 : ℚ)]] [3])
            (([[(2 : ℚ)]] : List (List ℚ)).getD 0 [])).getD
            (argminQ (emecAggs (emecFit 0 1 (some 0) 0 [[(1 : ℚ)]] [3])
              (([[(2 : ℚ)]] : List (List ℚ)).getD 0 []))) 0
          ≤ (emecAggs (emecFit 0 1 (some 0) 0 [[(1 : ℚ)]] [3])
              (([[(2 : ℚ)]] : List (List ℚ)).getD 0 [])).getD j 0) ∧
      (∀ j, j < argminQ (emecAggs (emecFit 0 1 (some 0) 0 [[(1 : ℚ)]] [3])
            (([[(2 : ℚ)]] : List (List ℚ)).getD 0 [])) →
        (emecAggs (emecFit 0 1 (some 0) 0 [[(1 : ℚ)]] [3])
            (([[(2 : ℚ)]] : List (List ℚ)).getD 0 [])).getD
            (argminQ (emecAggs (emecFit 0 1 (some 0) 0 [[(1 : ℚ)]] [3])
              (([[(2 : ℚ)]] : List (List ℚ)).getD 0 []))) 0
          < (emecAggs (emecFit 0 1 (some 0) 0 [[(1 : ℚ)]] [3])
              (([[(2 : ℚ)]] : List (List ℚ)).getD 0 [])).getD j 0))) :=
  ⟨by decide, C2_ensemble_predict 0 1 (some 0) 0 [[1]] [[2]] [3] 0 (by decide)⟩

/-- Claim C9: for a dataset with matching row counts and at least one label,
`fit` then `predict` on the training data returns, for both classifiers, a
label sequence whose length is the row count of `X` and whose every value is
one of the sorted unique labels observed in `y` (hence a label of `y`). -/
theorem C9_fit_predict_labels (nIter nM : ℕ) (seed : Option ℕ) (ent : ℕ)
    (X : List (List ℚ)) (y : List ℕ) (hlen : X.length = y.length) (hy : y ≠ []) :
    (mecPredict (mecFit nIter X y ent) X).length = X.length ∧
    (∀ v ∈ mecPredict (mecFit nIter X y ent) X, v ∈ npUnique y ∧ v ∈ y) ∧
    (emecPredict (emecFit nIter nM seed ent X y) X).length = X.length ∧
    (∀ v ∈ emecPredict (emecFit nIter nM seed ent X y) X, v ∈ npUnique y ∧ v ∈ y) := by
  have hcls : npUnique y ≠ [] := npUnique_ne_nil y hy
  refine ⟨by simp [mecPredict], ?_, by simp [emecPredict], ?_⟩
  · intro v hv
    have hm : v ∈ (mecFit nIter X y ent).classes :=
      mecPredict_mem (mecFit nIter X y ent) X hcls
        (buildModelsMec_length nIter (stoean_f (inj X)).d X y (npUnique y) ⟨ent⟩) v hv
    exact ⟨hm, (mem_npUnique v y).1 hm⟩
  · intro v hv
    have hm : v ∈ (emecFit nIter nM seed ent X y).classes :=
      emecPredict_mem (emecFit nIter nM seed ent X y) X hcls
        (buildModelsEmec_length nIter nM (emecScale X) X y (npUnique y) _) v hv
    exact ⟨hm, (mem_npUnique v y).1 hm⟩

/-- Witness for C9 on a one-row, one-class training set. -/
theorem C9_fit_predict_labels_witness :
    (([[(1 : ℚ)]] : List (List ℚ)).length = ([4] : List ℕ).length ∧ ([4] : List ℕ) ≠ []) ∧
    ((mecPredict (mecFit 0 [[(1 : ℚ)]] [4] 0) [[(1 : ℚ)]]).length
        = ([[(1 : ℚ)]] : List (List ℚ)).length ∧
     (∀ v ∈ mecPredict (mecFit 0 [[(1 : ℚ)]] [4] 0) [[(1 : ℚ)]],
        v ∈ npUnique [4] ∧ v ∈ [4]) ∧
     (emecPredict (emecFit 0 1 (some 7) 0 [[(1 : ℚ)]] [4]) [[(1 : ℚ)]]).length
        = ([[(1 : ℚ)]] : List (List ℚ)).length ∧
     (∀ v ∈ emecPredict (emecFit 0 1 (some 7) 0 [[(1 : ℚ)]] [4]) [[(1 : ℚ)]],
        v ∈ npUnique [4] ∧ v ∈ [4])) :=
  ⟨⟨rfl, by decide⟩, C9_fit_predict_labels 0 1 (some 7) 0 [[1]] [4] rfl (by decide)⟩

/-- Claim C10: for every fitted single-prototype classifier, `predict`
assigns the SAME label to every row of the input: the class at the argmin of
the per-class totals `mecTotals` (each a single scalar — the distance summed
over all input rows — broadcast into the class's column), where that total
is minimal among all classes and strictly smaller than every earlier
class's total. -/
theorem C10_single_predict_constant (m : FittedMEC) (X : List (List ℚ))
    (hne : m.classes ≠ []) (hml : m.models.length = m.classes.length) :
    (∀ p ∈ mecPredict m X, p = m.classes.getD (argminQ (mecTotals m X)) 0) ∧
    argminQ (mecTotals m X) < m.classes.length ∧
    (∀ j, j < (mecTotals m X).length →
      (mecTotals m X).getD (argminQ (mecTotals m X)) 0 ≤ (mecTotals m X).getD j 0) ∧
    (∀ j, j < argminQ (mecTotals m X) →
      (mecTotals m X).getD (argminQ (mecTotals m X)) 0 < (mecTotals m X).getD j 0) := by
  have htot : (mecTotals m X).length = m.classes.length := by
    rw [mecTotals, List.length_map]; exact hml
  have htne : mecTotals m X ≠ [] := by
    rw [← List.length_pos, htot]
    exact List.length_pos.2 hne
  refine ⟨?_, ?_, ?_, ?_⟩
  · intro p hp
    simp only [mecPredict, List.mem_map] at hp
    obtain ⟨a, _, hpa⟩ := hp
    exact hpa.symm
  · exact htot ▸ argminQ_lt_length _ htne
  · intro j hj
    rw [getD_argminQ _ htne]
    exact listMin_le _ j hj
  · exact fun j hj => argminQ_first _ j hj

/-- Witness for C10 on a two-class fitted state and a one-row input. -/
theorem C10_single_predict_constant_witness :
    ((FittedMEC.mk [5, 7] [1] [[0], [10]]).classes ≠ [] ∧
     (FittedMEC.mk [5, 7] [1] [[0], [10]]).models.length
       = (FittedMEC.mk [5, 7] [1] [[0], [10]]).classes.length) ∧
    ((∀ p ∈ mecPredict (FittedMEC.mk [5, 7] [1] [[0], [10]]) [[3]],
        p = (FittedMEC.mk [5, 7] [1] [[0], [10]]).classes.getD
            (argminQ (mecTotals (FittedMEC.mk [5, 7] [1] [[0], [10]]) [[3]])) 0) ∧
     argminQ (mecTotals (FittedMEC.mk [5, 7] [1] [[0], [10]]) [[3]])
       < (FittedMEC.mk [5, 7] [1] [[0], [10]]).classes.length ∧
     (∀ j, j < (mecTotals (FittedMEC.mk [5, 7] [1] [[0], [10]]) [[3]]).length →
       (mecTotals (FittedMEC.mk [5, 7] [1] [[0], [10]]) [[3]]).getD
           (argminQ (mecTotals (FittedMEC.mk [5, 7] [1] [[0], [10]]) [[3]])) 0
         ≤ (mecTotals (FittedMEC.mk [5, 7] [1] [[0], [10]]) [[3]]).getD j 0) ∧
     (∀ j, j < argminQ (mecTotals (FittedMEC.mk [5, 7] [1] [[0], [10]]) [[3]]) →
       (mecTotals (FittedMEC.mk [5, 7] [1] [[0], [10]]) [[3]]).getD
           (argminQ (mecTotals (FittedMEC.mk [5, 7] [1] [[0], [10]]) [[3]])) 0
         < (mecTotals (FittedMEC.mk [5, 7] [1] [[0], [10]]) [[3]]).getD j 0)) :=
  ⟨⟨by decide, rfl⟩,
    C10_single_predict_constant (FittedMEC.mk [5, 7] [1] [[0], [10]]) [[3]] (by decide) rfl⟩

end Garules
